import Mathlib

/-!
Shallow embedding of the VoTT annotation-canvas core: the region data model
(`applicationState`), the tag helpers of `canvasHelpers.ts`, and the region-mutating
operations of the `Canvas` controller (`canvas.tsx`), together with theorems about
copy/cut/paste, tag toggling, region deletion and the asset-state invariant.

JavaScript conventions captured by the embedding:
- in-place array mutation is embedded as returning the updated list;
- `Array.findIndex` yielding -1 is embedded via `Option Nat` or an explicit `Int`;
- `Array.splice` with a negative start counts from the end of the array;
- truthiness guards (`if (xs)`, `if (xs.length)`, `if (!find(...))`) are embedded
  by the exact JavaScript truthiness of the value at hand.
-/

namespace VoTT

/-- Axis-aligned bounding box of a region in source pixel space (`IRegion.boundingBox`). -/
structure BoundingBox where
  left : Int
  top : Int
  width : Int
  height : Int
deriving Repr, DecidableEq

/-- A 2-D coordinate (`IPoint`), in source pixel space. -/
structure Point where
  x : Int
  y : Int
deriving Repr, DecidableEq

/-- `RegionType` of `applicationState`: the shape kind of a region. -/
inductive RegionType where
  | Rectangle
  | Polygon
  | Point
  | Polyline
deriving Repr, DecidableEq

/-- `AssetState` of `applicationState`: visit/tag status of an asset. -/
inductive AssetState where
  | Unvisited
  | Visited
  | Tagged
deriving Repr, DecidableEq

/-- `IRegion`: a tagged geometric shape, identified by an opaque string id. -/
structure Region where
  id : String
  type : RegionType
  boundingBox : BoundingBox
  points : List Point
  tags : List String
deriving Repr, DecidableEq

/-- The asset identity and state carried inside `IAssetMetadata.asset`. -/
structure Asset where
  id : String
  state : AssetState
deriving Repr, DecidableEq

/-- `IAssetMetadata`: one asset's persisted annotation state. -/
structure AssetMetadata where
  asset : Asset
  regions : List Region
deriving Repr, DecidableEq

/-- The `Canvas` component state (`ICanvasState`) together with the controller-owned
clipboard (`this.clipBoard`), the set of region ids currently drawn on the rendering
surface (`this.editor.RM`), and a counter of `onAssetMetadataChanged` host notifications. -/
structure CanvasState where
  selectedRegions : List Region
  multiSelect : Bool
  clipboard : Option (List Region)
  surfaceRegions : List String
  notifications : Nat
deriving Repr, DecidableEq

namespace CanvasHelpers

/-- `CanvasHelpers.toggleTag` (canvasHelpers.ts 19-28): look up the tag's index with
`findIndex`; if it is -1 (absent) push the tag, else splice out that single occurrence.
The documented in-place mutation of `tags` is embedded as returning the updated list. -/
def toggleTag (tags : List String) (tag : String) : List String :=
  match tags.findIdx? (fun existingTag => existingTag == tag) with
  | none => tags ++ [tag]
  | some tagIndex => tags.eraseIdx tagIndex

/-- `CanvasHelpers.find` (canvasHelpers.ts 30-32): `tags.find((t) => t === tag)`;
`none` embeds the JavaScript `undefined` returned when no element matches. -/
def find (tags : List String) (tag : String) : Option String :=
  tags.find? (fun t => t == tag)

/-- JavaScript truthiness of a `CanvasHelpers.find` result: `undefined` is falsy and so is
the empty string; every other string is truthy. -/
def truthy (s : Option String) : Bool :=
  match s with
  | none => false
  | some str => !(str == "")

/-- `CanvasHelpers.addIfMissing` (canvasHelpers.ts 38-42):
`if (!CanvasHelpers.find(tags, tag)) { tags.push(tag); }` — the guard is on the
truthiness of the found element, not on whether one was found. -/
def addIfMissing (tags : List String) (tag : String) : List String :=
  if truthy (find tags tag) then tags else tags ++ [tag]

/-- Modelled from the spec: the fixed pixel paste margin of `duplicateWithOffset`
(`CanvasHelpers.pasteMargin`, referenced by the repository's tests but absent from the
sources); spec §8 scenario uses margin 10. -/
def pasteMargin : Int := 10

/-- Modelled from the spec: the fresh-id generator (`shortid.generate`) used when pasting,
embedded deterministically as a string strictly longer than every id in `used`, hence
distinct from all of them. -/
def freshId (used : List String) : String :=
  String.mk (List.replicate (1 + (used.map String.length).foldr Nat.max 0) 'x')

/-- Modelled from the spec: the per-region loop of `duplicateWithOffset` — each input
region yields a deep copy with a freshly generated id (recorded so later copies cannot
collide with it), `boundingBox.left/top` and every point shifted by `offset`, and all
other fields (type, tags, width, height) preserved. -/
def duplicateLoop (offset : Int) : List Region → List String → List Region
  | [], _ => []
  | region :: rest, used =>
    let newId := freshId used
    let dup : Region :=
      { region with
        id := newId
        boundingBox := { region.boundingBox with
          left := region.boundingBox.left + offset
          top := region.boundingBox.top + offset }
        points := region.points.map (fun p => { x := p.x + offset, y := p.y + offset }) }
    dup :: duplicateLoop offset rest (newId :: used)

/-- Modelled from the spec: `duplicateWithOffset(regions, existingRegions, offset)` — the
body of `CanvasHelpers.duplicateAndTransformRegions` called from `pasteRegions`
(canvas.tsx 254-260) but missing from the sources. Spec §4.1: for each input region,
produce a deep copy with a freshly generated id, `boundingBox.left/top` and every point
shifted by a fixed pixel offset, such that pasted regions never collide in id with
`existingRegions`. -/
def duplicateWithOffset (regions existingRegions : List Region) (offset : Int) : List Region :=
  duplicateLoop offset regions (existingRegions.map (fun r => r.id))

end CanvasHelpers

namespace Canvas

/-- Per-region body of `applyTags` (canvas.tsx 136-143): a null or empty armed tag list
clears the region's tags; otherwise every armed tag is toggled, in order, against the
region's tag list. -/
def applyTagsToRegion (selectedTags : List String) (region : Region) : Region :=
  if selectedTags.isEmpty then { region with tags := [] }
  else { region with tags := selectedTags.foldl CanvasHelpers.toggleTag region.tags }

/-- `applyTags` (canvas.tsx 135-147): rewrite the tags of every currently selected region,
then notify the host once (`onAssetMetadataChanged`), embedded as bumping the
notification counter. The per-region surface push (`updateTagsById`) has no effect on
the embedded state. -/
def applyTags (st : CanvasState) (selectedTags : List String) : CanvasState :=
  { st with
    selectedRegions := st.selectedRegions.map (applyTagsToRegion selectedTags)
    notifications := st.notifications + 1 }

/-- `onRegionSelected` (canvas.tsx 154-168): look the event id up in the asset's regions;
in multi-select mode append the found region only when no already-selected region has the
same id, otherwise replace the selection with the one found region. When the id is absent
the claims under verification do not apply (the JavaScript would dereference `undefined`
in the multi-select branch); the embedding leaves the selection unchanged there. -/
def onRegionSelected (regions : List Region) (multiSelect : Bool)
    (selectedRegions : List Region) (id : String) : List Region :=
  match regions.find? (fun region => region.id == id) with
  | some selectedRegion =>
    if multiSelect then
      if (selectedRegions.find? (fun r => r.id == selectedRegion.id)).isNone then
        selectedRegions ++ [selectedRegion]
      else
        selectedRegions
    else
      [selectedRegion]
  | none => selectedRegions

/-- A whole sequence of region-select events, each a (multiSelect, id) pair, folded over
the selection state. -/
def selectEvents (regions : List Region) (selectedRegions : List Region)
    (events : List (Bool × String)) : List Region :=
  events.foldl (fun sel e => onRegionSelected regions e.1 sel e.2) selectedRegions

/-- `onSelectionEnd` (canvas.tsx 175-194), restricted to the asset metadata it mutates:
push the freshly drawn region, then `if (regions.length)` mark the asset Tagged. -/
def onSelectionEnd (m : AssetMetadata) (newRegion : Region) : AssetMetadata :=
  let regions := m.regions ++ [newRegion]
  { m with
    regions := regions
    asset := { m.asset with
      state := if regions.length ≠ 0 then AssetState.Tagged else m.asset.state } }

/-- `onRegionMove` (canvas.tsx 202-217), restricted to the asset's region collection:
`findIndex` locates the moved region; when found, only its `points` are overwritten with
the scaled geometry. When the id is absent, `regions[-1]` reads `undefined`, the guarded
write is skipped, and `regions[-1] = undefined` creates a non-index property on the array
object — the array's elements are unchanged, embedded as the identity. -/
def onRegionMove (m : AssetMetadata) (id : String) (scaledPoints : List Point) : AssetMetadata :=
  match m.regions.findIdx? (fun region => region.id == id) with
  | some movedRegionIndex =>
    match m.regions.get? movedRegionIndex with
    | some movedRegion =>
      { m with
        regions := m.regions.set movedRegionIndex { movedRegion with points := scaledPoints } }
    | none => m
  | none => m

/-- JavaScript `Array.findIndex` on a region collection: the first index whose region
carries the given id, or -1 when none does. -/
def findIndex (regions : List Region) (id : String) : Int :=
  match regions.findIdx? (fun region => region.id == id) with
  | some i => (i : Int)
  | none => -1

/-- JavaScript `Array.splice(start, 1)`: the actual start index is `max(len + start, 0)`
when `start` is negative and `min(start, len)` otherwise; one element (when in range) is
removed there. In particular `splice(-1, 1)` removes the LAST element of a non-empty
array. -/
def spliceOne (l : List Region) (start : Int) : List Region :=
  let len : Int := l.length
  let actualStart : Nat := (if start < 0 then max (len + start) 0 else min start len).toNat
  l.take actualStart ++ l.drop (actualStart + 1)

/-- `deleteRegionFromAsset` (canvas.tsx 280-290): `regions.splice(findIndex(id), 1)` —
note the absence of a guard on the -1 not-found index — then demote the asset to Visited
when the collection has become empty. -/
def deleteRegionFromAsset (m : AssetMetadata) (id : String) : AssetMetadata :=
  let deletedRegionIndex := findIndex m.regions id
  let regions := spliceOne m.regions deletedRegionIndex
  { m with
    regions := regions
    asset := { m.asset with
      state := if regions.length = 0 then AssetState.Visited else m.asset.state } }

/-- `addRegionToAsset` (canvas.tsx 269-278): push the region, then `if (regions.length)`
mark the asset Tagged. -/
def addRegionToAsset (m : AssetMetadata) (region : Region) : AssetMetadata :=
  let regions := m.regions ++ [region]
  { m with
    regions := regions
    asset := { m.asset with
      state := if regions.length ≠ 0 then AssetState.Tagged else m.asset.state } }

/-- `addRegions` (canvas.tsx 292-304), restricted to the asset metadata: every pasted
region is registered with the surface and appended through `addRegionToAsset`. -/
def addRegions (m : AssetMetadata) (regions : List Region) : AssetMetadata :=
  regions.foldl addRegionToAsset m

/-- `copyRegions` (canvas.tsx 241-245): `if (this.state.selectedRegions)` tests JavaScript
truthiness; `selectedRegions` always holds an array, and an array — empty included — is
truthy, so the guard always passes and the clipboard snapshot is always overwritten. -/
def copyRegions (st : CanvasState) : CanvasState :=
  { st with clipboard := some st.selectedRegions }

/-- `pasteRegions` (canvas.tsx 254-260): read the clipboard; `if (regions)` fails only for
the never-set `undefined` clipboard (an empty array snapshot is truthy); duplicate the
snapshot against the asset's existing regions and append the duplicates. -/
def pasteRegions (st : CanvasState) (m : AssetMetadata) : AssetMetadata :=
  match st.clipboard with
  | some regions =>
    addRegions m (CanvasHelpers.duplicateWithOffset regions m.regions CanvasHelpers.pasteMargin)
  | none => m

/-- `cutRegions` (canvas.tsx 247-252), restricted to the asset metadata: after the copy,
every selected region id goes through `onRegionDelete`, whose asset-metadata effect is
`deleteRegionFromAsset`. -/
def cutRegionsAsset (m : AssetMetadata) (selectedIds : List String) : AssetMetadata :=
  selectedIds.foldl deleteRegionFromAsset m

/-- `clearRegions` (canvas.tsx 262-267), restricted to the asset metadata: iterate over a
snapshot of all region ids, deleting each in turn. -/
def clearRegions (m : AssetMetadata) : AssetMetadata :=
  (m.regions.map (fun r => r.id)).foldl deleteRegionFromAsset m

/-- The asset-change branch of `componentDidUpdate` (canvas.tsx 65-73): when the incoming
asset id differs, wipe the surface (`clearAllRegions` → `deleteAllRegions`) and reset
`selectedRegions` only when the incoming asset's region collection is non-empty
(`if (this.props.selectedAsset.regions.length)`). -/
def componentDidUpdateAssetChange (st : CanvasState) (prevAssetId : String)
    (selectedAsset : AssetMetadata) : CanvasState :=
  if selectedAsset.asset.id ≠ prevAssetId then
    let st1 := { st with surfaceRegions := [] }
    if selectedAsset.regions.length ≠ 0 then { st1 with selectedRegions := [] } else st1
  else st

/-- The asset-state invariant of spec §3/§8: the asset is Tagged exactly when its region
collection is non-empty. -/
def taggedInvariant (m : AssetMetadata) : Prop :=
  m.regions ≠ [] ↔ m.asset.state = AssetState.Tagged

end Canvas

/-- Concrete sample region used by witnesses and counterexamples. -/
def catRegion : Region :=
  { id := "r1"
    type := RegionType.Rectangle
    boundingBox := { left := 0, top := 0, width := 10, height := 10 }
    points := [{ x := 0, y := 0 }, { x := 10, y := 10 }]
    tags := ["cat"] }

/-- A second concrete sample region, with a different id and tag. -/
def dogRegion : Region :=
  { id := "r2"
    type := RegionType.Polygon
    boundingBox := { left := 5, top := 5, width := 20, height := 20 }
    points := [{ x := 5, y := 5 }, { x := 25, y := 25 }]
    tags := ["dog"] }

/-- Concrete sample asset metadata holding the two sample regions. -/
def sampleAsset : AssetMetadata :=
  { asset := { id := "asset-1", state := AssetState.Tagged }
    regions := [catRegion, dogRegion] }

/-- Characterisation of `toggleTag` through `List.erase`: a present tag has its first
occurrence removed, an absent tag is appended. -/
theorem toggleTag_eq (tags : List String) (tag : String) :
    CanvasHelpers.toggleTag tags tag =
      if tag ∈ tags then tags.erase tag else tags ++ [tag] := by
  induction tags with
  | nil => simp [CanvasHelpers.toggleTag]
  | cons a as ih =>
    by_cases hat : a = tag
    · subst hat
      simp [CanvasHelpers.toggleTag, List.findIdx?_cons]
    · have hbeq : (a == tag) = false := by simp [hat]
      unfold CanvasHelpers.toggleTag
      rw [List.findIdx?_cons]
      simp only [hbeq, Bool.false_eq_true, if_false, List.findIdx?_succ]
      unfold CanvasHelpers.toggleTag at ih
      have htna : ¬tag = a := fun h => hat h.symm
      cases hfind : as.findIdx? (fun existingTag => existingTag == tag) with
      | none =>
        have hnot : tag ∉ as := by
          intro hmem
          have := List.findIdx?_eq_none_iff.mp hfind tag hmem
          simp at this
        rw [hfind] at ih
        simp [List.mem_cons, hnot, htna]
      | some i =>
        have hmem : tag ∈ as := by
          by_contra hnot
          have : as.findIdx? (fun existingTag => existingTag == tag) = none :=
            List.findIdx?_eq_none_iff.mpr (fun x hx => by
              simp only [beq_eq_false_iff_ne, ne_eq]
              intro he; exact hnot (he ▸ hx))
          rw [this] at hfind
          cases hfind
        rw [hfind, if_pos hmem] at ih
        have ih' : as.eraseIdx i = as.erase tag := ih
        simp only [Option.map_some', List.eraseIdx_cons_succ, ih']
        rw [if_pos (List.mem_cons_of_mem a hmem),
          List.erase_cons_tail (by simp [hat])]

/-- Membership after one `toggleTag` on a duplicate-free list: the toggled tag flips its
membership, every other tag keeps it. -/
theorem mem_toggleTag {tags : List String} (h : tags.Nodup) (tag x : String) :
    x ∈ CanvasHelpers.toggleTag tags tag ↔
      (if x = tag then tag ∉ tags else x ∈ tags) := by
  rw [toggleTag_eq]
  by_cases hmem : tag ∈ tags
  · rw [if_pos hmem]
    by_cases hx : x = tag
    · subst hx
      simp [h.not_mem_erase, hmem]
    · simp [List.Nodup.mem_erase_iff h, hx]
  · rw [if_neg hmem]
    by_cases hx : x = tag
    · subst hx
      simp [hmem]
    · simp [hx, hmem]

/-- `toggleTag` preserves duplicate-freeness. -/
theorem nodup_toggleTag {tags : List String} (h : tags.Nodup) (tag : String) :
    (CanvasHelpers.toggleTag tags tag).Nodup := by
  rw [toggleTag_eq]
  by_cases hmem : tag ∈ tags
  · rw [if_pos hmem]
    exact h.erase tag
  · rw [if_neg hmem]
    exact List.nodup_append.mpr ⟨h, List.nodup_singleton tag,
      List.disjoint_singleton.mpr hmem⟩

/-- Folding `toggleTag` over any armed tag list preserves duplicate-freeness. -/
theorem nodup_foldl_toggleTag (armed : List String) :
    ∀ (tags : List String), tags.Nodup →
      (armed.foldl CanvasHelpers.toggleTag tags).Nodup := by
  induction armed with
  | nil => intro tags h; exact h
  | cons t rest ih =>
    intro tags h
    rw [List.foldl_cons]
    exact ih _ (nodup_toggleTag h t)

/-- Membership after folding `toggleTag` over a duplicate-free armed tag list on a
duplicate-free tag list: each armed tag has its membership flipped, each other tag keeps
its membership. -/
theorem mem_foldl_toggleTag (armed : List String) :
    ∀ (tags : List String), tags.Nodup → armed.Nodup → ∀ x : String,
      (x ∈ armed.foldl CanvasHelpers.toggleTag tags ↔
        (if x ∈ armed then x ∉ tags else x ∈ tags)) := by
  induction armed with
  | nil => intro tags _ _ x; simp
  | cons t rest ih =>
    intro tags htags harmed x
    have hrest : rest.Nodup := (List.nodup_cons.mp harmed).2
    have htnotin : t ∉ rest := (List.nodup_cons.mp harmed).1
    rw [List.foldl_cons, ih (CanvasHelpers.toggleTag tags t) (nodup_toggleTag htags t) hrest x]
    by_cases hxrest : x ∈ rest
    · have hxt : ¬x = t := fun he => htnotin (he ▸ hxrest)
      rw [if_pos hxrest, if_pos (List.mem_cons_of_mem t hxrest)]
      rw [mem_toggleTag htags t x, if_neg hxt]
    · by_cases hxt : x = t
      · subst hxt
        rw [if_neg hxrest, if_pos (List.mem_cons_self x rest)]
        rw [mem_toggleTag htags x x, if_pos rfl]
      · rw [if_neg hxrest, if_neg (by simp [List.mem_cons, hxt, hxrest])]
        rw [mem_toggleTag htags t x, if_neg hxt]

/-- C6: on a duplicate-free tag list, toggling the same tag name twice restores the
original membership (order-independent), and a single toggle appends the tag when it is
absent and removes its only occurrence when it is present. -/
theorem toggleTag_double_toggle (tags : List String) (tag : String) (h : tags.Nodup) :
    (∀ x, x ∈ CanvasHelpers.toggleTag (CanvasHelpers.toggleTag tags tag) tag ↔ x ∈ tags) ∧
    (tag ∉ tags → CanvasHelpers.toggleTag tags tag = tags ++ [tag]) ∧
    (tag ∈ tags → CanvasHelpers.toggleTag tags tag = tags.erase tag) := by
  refine ⟨?_, ?_, ?_⟩
  · intro x
    rw [mem_toggleTag (nodup_toggleTag h tag) tag x]
    by_cases hx : x = tag
    · subst hx
      rw [if_pos rfl, mem_toggleTag h x x, if_pos rfl, not_not]
    · rw [if_neg hx, mem_toggleTag h tag x, if_neg hx]
  · intro hnot
    rw [toggleTag_eq, if_neg hnot]
  · intro hmem
    rw [toggleTag_eq, if_pos hmem]

/-- Witness for C6 at the concrete duplicate-free tag list ["cat"] and tag name "dog". -/
theorem toggleTag_double_toggle_witness :
    (∀ x, x ∈ CanvasHelpers.toggleTag (CanvasHelpers.toggleTag ["cat"] "dog") "dog" ↔
      x ∈ (["cat"] : List String)) ∧
    ("dog" ∉ (["cat"] : List String) →
      CanvasHelpers.toggleTag ["cat"] "dog" = ["cat"] ++ ["dog"]) ∧
    ("dog" ∈ (["cat"] : List String) →
      CanvasHelpers.toggleTag ["cat"] "dog" = (["cat"] : List String).erase "dog") :=
  toggleTag_double_toggle ["cat"] "dog" (by decide)

/-- C3: the tags-changed / select-all tag-apply operation rewrites every selected region's
tags — clearing them when the armed tag list is empty, and otherwise toggling the
membership of each armed tag (added when absent, removed when present), so each region's
tag list afterward is the toggle of its previous list — and then notifies the host once. -/
theorem applyTags_spec (st : CanvasState) (armed : List String)
    (hsel : st.selectedRegions ≠ []) (harmed : armed.Nodup)
    (htags : ∀ r ∈ st.selectedRegions, r.tags.Nodup) :
    (Canvas.applyTags st armed).selectedRegions
        = st.selectedRegions.map (Canvas.applyTagsToRegion armed) ∧
    (armed = [] → ∀ r ∈ st.selectedRegions, (Canvas.applyTagsToRegion armed r).tags = []) ∧
    (armed ≠ [] → ∀ r ∈ st.selectedRegions, ∀ x : String,
      (x ∈ (Canvas.applyTagsToRegion armed r).tags ↔
        (if x ∈ armed then x ∉ r.tags else x ∈ r.tags))) ∧
    (Canvas.applyTags st armed).notifications = st.notifications + 1 := by
  refine ⟨rfl, ?_, ?_, rfl⟩
  · intro hempty r _
    subst hempty
    simp [Canvas.applyTagsToRegion]
  · intro hne r hr x
    have hnonempty : armed.isEmpty = false := by
      cases armed with
      | nil => exact absurd rfl hne
      | cons a as => rfl
    rw [Canvas.applyTagsToRegion, hnonempty]
    simp only [Bool.false_eq_true, if_false]
    exact mem_foldl_toggleTag armed r.tags (htags r hr) harmed x

/-- Witness for C3 at a concrete state whose selection holds the sample "cat"-tagged
region, with armed tag list ["cat", "bird"]. -/
theorem applyTags_spec_witness :
    ((Canvas.applyTags
        { selectedRegions := [catRegion], multiSelect := false, clipboard := none,
          surfaceRegions := [], notifications := 0 } ["cat", "bird"]).selectedRegions
      = [catRegion].map (Canvas.applyTagsToRegion ["cat", "bird"])) ∧
    ((["cat", "bird"] : List String) = [] → ∀ r ∈ [catRegion],
      (Canvas.applyTagsToRegion ["cat", "bird"] r).tags = []) ∧
    ((["cat", "bird"] : List String) ≠ [] → ∀ r ∈ [catRegion], ∀ x : String,
      (x ∈ (Canvas.applyTagsToRegion ["cat", "bird"] r).tags ↔
        (if x ∈ (["cat", "bird"] : List String) then x ∉ r.tags else x ∈ r.tags))) ∧
    (Canvas.applyTags
        { selectedRegions := [catRegion], multiSelect := false, clipboard := none,
          surfaceRegions := [], notifications := 0 } ["cat", "bird"]).notifications = 0 + 1 :=
  applyTags_spec
    { selectedRegions := [catRegion], multiSelect := false, clipboard := none,
      surfaceRegions := [], notifications := 0 } ["cat", "bird"]
    (by decide) (by decide) (by decide)

/-- Counterexample for C4: copying an empty selection does change the clipboard — a state
holding the snapshot `some [catRegion]` ends up holding `some []`, because the JavaScript
guard `if (this.state.selectedRegions)` tests truthiness and an empty array is truthy. -/
theorem copyRegions_empty_counterexample :
    (Canvas.copyRegions
        { selectedRegions := [], multiSelect := false, clipboard := some [catRegion],
          surfaceRegions := [], notifications := 0 }).clipboard
      ≠ (CanvasState.clipboard
        { selectedRegions := [], multiSelect := false, clipboard := some [catRegion],
          surfaceRegions := [], notifications := 0 }) := by
  decide

/-- C4 (amended): copying an empty selection is not a no-op — the guard passes (an empty
array is truthy), so the clipboard snapshot becomes the empty collection, replacing any
previously stored snapshot. -/
theorem copyRegions_empty_overwrites (st : CanvasState)
    (h : st.selectedRegions = []) :
    (Canvas.copyRegions st).clipboard = some [] := by
  rw [Canvas.copyRegions, h]

/-- Witness for the amended C4 at a concrete state with an empty selection and a
previously stored non-empty snapshot. -/
theorem copyRegions_empty_overwrites_witness :
    (Canvas.copyRegions
        { selectedRegions := [], multiSelect := false, clipboard := some [catRegion],
          surfaceRegions := [], notifications := 0 }).clipboard = some [] :=
  copyRegions_empty_overwrites
    { selectedRegions := [], multiSelect := false, clipboard := some [catRegion],
      surfaceRegions := [], notifications := 0 } rfl

/-- C5: a Region-move event whose id is absent from the asset's region collection leaves
the asset metadata — in particular its region collection — unchanged: `findIndex` yields
-1, the guarded write is skipped, and the write to index -1 touches no array element. -/
theorem onRegionMove_absent_noop (m : AssetMetadata) (id : String) (pts : List Point)
    (h : ∀ r ∈ m.regions, r.id ≠ id) :
    Canvas.onRegionMove m id pts = m ∧
    (Canvas.onRegionMove m id pts).regions = m.regions := by
  have hfind : m.regions.findIdx? (fun region => region.id == id) = none :=
    List.findIdx?_eq_none_iff.mpr (fun r hr => by
      simp only [beq_eq_false_iff_ne, ne_eq]
      exact h r hr)
  constructor
  · rw [Canvas.onRegionMove, hfind]
  · rw [Canvas.onRegionMove, hfind]

/-- Witness for C5 at the concrete sample asset and the absent id "zzz". -/
theorem onRegionMove_absent_noop_witness :
    Canvas.onRegionMove sampleAsset "zzz" [] = sampleAsset ∧
    (Canvas.onRegionMove sampleAsset "zzz" []).regions = sampleAsset.regions :=
  onRegionMove_absent_noop sampleAsset "zzz" [] (by decide)

/-- Evaluation of the code at C1's failing input: deleting the absent id "zzz" from the
sample asset (regions [catRegion, dogRegion]) removes the LAST region — `findIndex`
returns -1 and `splice(-1, 1)` deletes the final element — leaving [catRegion]. -/
theorem deleteRegionFromAsset_absent_removes_last :
    (∀ r ∈ sampleAsset.regions, r.id ≠ "zzz") ∧
    (Canvas.deleteRegionFromAsset sampleAsset "zzz").regions = [catRegion] := by
  decide

/-- C10: `addIfMissing` leaves the tag list unchanged for every non-empty tag name already
present (preserving duplicate-freeness), but appends the empty-string tag again when it is
already present, because presence is tested via the truthiness of the found element. -/
theorem addIfMissing_present (tags : List String) (tag : String)
    (h1 : tag ≠ "") (h2 : tag ∈ tags) :
    CanvasHelpers.addIfMissing tags tag = tags ∧
    CanvasHelpers.addIfMissing [""] "" = ["", ""] := by
  constructor
  · have hfind : CanvasHelpers.find tags tag = some tag := by
      rw [CanvasHelpers.find]
      cases hf : tags.find? (fun t => t == tag) with
      | none =>
        exact absurd (by simp : (tag == tag) = true)
          (by simpa using List.find?_eq_none.mp hf tag h2)
      | some x =>
        have hx : x = tag := by simpa using List.find?_some hf
        rw [hx]
    rw [CanvasHelpers.addIfMissing, hfind]
    simp [CanvasHelpers.truthy, h1]
  · decide

/-- Witness for C10 at the concrete tag list ["cat", "dog"] and the present non-empty tag
name "dog". -/
theorem addIfMissing_present_witness :
    CanvasHelpers.addIfMissing ["cat", "dog"] "dog" = ["cat", "dog"] ∧
    CanvasHelpers.addIfMissing [""] "" = ["", ""] :=
  addIfMissing_present ["cat", "dog"] "dog" (by decide) (by decide)

/-- Every member of a list of naturals is bounded by the fold of `Nat.max` over it. -/
theorem le_foldr_max (l : List Nat) (n : Nat) (h : n ∈ l) : n ≤ l.foldr Nat.max 0 := by
  induction l with
  | nil => cases h
  | cons a as ih =>
    rcases List.mem_cons.mp h with rfl | h'
    · exact Nat.le_max_left _ _
    · exact le_trans (ih h') (Nat.le_max_right _ _)

/-- The generated fresh id is distinct from every id it was generated against. -/
theorem freshId_not_mem (used : List String) : CanvasHelpers.freshId used ∉ used := by
  intro hmem
  have hlen : (CanvasHelpers.freshId used).length
      = 1 + (used.map String.length).foldr Nat.max 0 := by
    show (List.replicate (1 + (used.map String.length).foldr Nat.max 0) 'x').length = _
    rw [List.length_replicate]
  have hle : (CanvasHelpers.freshId used).length ≤ (used.map String.length).foldr Nat.max 0 :=
    le_foldr_max _ _ (List.mem_map_of_mem String.length hmem)
  omega

/-- Unfolding equation for `duplicateLoop` on a cons cell. -/
theorem duplicateLoop_cons (offset : Int) (region : Region) (rest : List Region)
    (used : List String) :
    CanvasHelpers.duplicateLoop offset (region :: rest) used =
      { region with
        id := CanvasHelpers.freshId used
        boundingBox := { region.boundingBox with
          left := region.boundingBox.left + offset
          top := region.boundingBox.top + offset }
        points := region.points.map (fun p => { x := p.x + offset, y := p.y + offset }) }
        :: CanvasHelpers.duplicateLoop offset rest (CanvasHelpers.freshId used :: used) := rfl

/-- `duplicateLoop` produces exactly one duplicate per input region. -/
theorem duplicateLoop_length (offset : Int) :
    ∀ (rs : List Region) (used : List String),
      (CanvasHelpers.duplicateLoop offset rs used).length = rs.length := by
  intro rs
  induction rs with
  | nil => intro used; rfl
  | cons r rest ih =>
    intro used
    rw [duplicateLoop_cons, List.length_cons, List.length_cons, ih]

/-- Every id produced by `duplicateLoop` avoids the whole id list it was run against. -/
theorem duplicateLoop_id_fresh (offset : Int) :
    ∀ (rs : List Region) (used : List String),
      ∀ d ∈ CanvasHelpers.duplicateLoop offset rs used, d.id ∉ used := by
  intro rs
  induction rs with
  | nil => intro used d hd; cases hd
  | cons r rest ih =>
    intro used d hd
    rw [duplicateLoop_cons] at hd
    rcases List.mem_cons.mp hd with rfl | hd'
    · exact freshId_not_mem used
    · intro hmem
      exact ih (CanvasHelpers.freshId used :: used) d hd' (List.mem_cons_of_mem _ hmem)

/-- Shape of every duplicate produced by `duplicateLoop`: bounding box and points shifted
by the offset, width/height and tags preserved. -/
theorem duplicateLoop_forall₂ (offset : Int) :
    ∀ (rs : List Region) (used : List String),
      List.Forall₂ (fun src dup =>
        dup.boundingBox.left = src.boundingBox.left + offset ∧
        dup.boundingBox.top = src.boundingBox.top + offset ∧
        dup.boundingBox.width = src.boundingBox.width ∧
        dup.boundingBox.height = src.boundingBox.height ∧
        dup.points = src.points.map (fun p => { x := p.x + offset, y := p.y + offset }) ∧
        dup.tags = src.tags) rs (CanvasHelpers.duplicateLoop offset rs used) := by
  intro rs
  induction rs with
  | nil => intro used; exact List.Forall₂.nil
  | cons r rest ih =>
    intro used
    rw [duplicateLoop_cons]
    exact List.Forall₂.cons ⟨rfl, rfl, rfl, rfl, rfl, rfl⟩ (ih _)

/-- The region collection after `addRegions` is the old collection with the new regions
appended in order. -/
theorem addRegions_regions :
    ∀ (rs : List Region) (m : AssetMetadata),
      (Canvas.addRegions m rs).regions = m.regions ++ rs := by
  intro rs
  induction rs with
  | nil => intro m; simp [Canvas.addRegions]
  | cons r rest ih =>
    intro m
    rw [Canvas.addRegions, List.foldl_cons]
    have h := ih (Canvas.addRegionToAsset m r)
    rw [Canvas.addRegions] at h
    rw [h]
    show (m.regions ++ [r]) ++ rest = m.regions ++ r :: rest
    rw [List.append_assoc, List.singleton_append]

/-- C2: pasting a non-empty clipboard snapshot R appends to the asset's region collection
one duplicate per region of R; every duplicate's freshly generated id is distinct from
every id already in the asset's regions, its bounding box and points are shifted by the
fixed paste margin, and its tags equal those of its source region. -/
theorem pasteRegions_spec (st : CanvasState) (m : AssetMetadata) (R : List Region)
    (hclip : st.clipboard = some R) (hne : R ≠ []) :
    (Canvas.pasteRegions st m).regions
        = m.regions ++ CanvasHelpers.duplicateWithOffset R m.regions CanvasHelpers.pasteMargin ∧
    (CanvasHelpers.duplicateWithOffset R m.regions CanvasHelpers.pasteMargin).length
        = R.length ∧
    (∀ d ∈ CanvasHelpers.duplicateWithOffset R m.regions CanvasHelpers.pasteMargin,
      ∀ r ∈ m.regions, d.id ≠ r.id) ∧
    List.Forall₂ (fun src dup =>
        dup.boundingBox.left = src.boundingBox.left + CanvasHelpers.pasteMargin ∧
        dup.boundingBox.top = src.boundingBox.top + CanvasHelpers.pasteMargin ∧
        dup.boundingBox.width = src.boundingBox.width ∧
        dup.boundingBox.height = src.boundingBox.height ∧
        dup.points = src.points.map
          (fun p => { x := p.x + CanvasHelpers.pasteMargin,
                      y := p.y + CanvasHelpers.pasteMargin }) ∧
        dup.tags = src.tags)
      R (CanvasHelpers.duplicateWithOffset R m.regions CanvasHelpers.pasteMargin) := by
  refine ⟨?_, ?_, ?_, ?_⟩
  · rw [Canvas.pasteRegions, hclip]
    exact addRegions_regions _ m
  · exact duplicateLoop_length _ R _
  · intro d hd r hr hid
    exact duplicateLoop_id_fresh _ R _ d hd
      (hid ▸ List.mem_map_of_mem (fun r => r.id) hr)
  · exact duplicateLoop_forall₂ _ R _

/-- Witness for C2 at a concrete state whose clipboard holds [catRegion] and the concrete
sample asset. -/
theorem pasteRegions_spec_witness :
    ((Canvas.pasteRegions
        { selectedRegions := [], multiSelect := false, clipboard := some [catRegion],
          surfaceRegions := [], notifications := 0 } sampleAsset).regions
      = sampleAsset.regions
        ++ CanvasHelpers.duplicateWithOffset [catRegion] sampleAsset.regions
            CanvasHelpers.pasteMargin) ∧
    (CanvasHelpers.duplicateWithOffset [catRegion] sampleAsset.regions
        CanvasHelpers.pasteMargin).length = [catRegion].length ∧
    (∀ d ∈ CanvasHelpers.duplicateWithOffset [catRegion] sampleAsset.regions
        CanvasHelpers.pasteMargin,
      ∀ r ∈ sampleAsset.regions, d.id ≠ r.id) ∧
    List.Forall₂ (fun src dup =>
        dup.boundingBox.left = src.boundingBox.left + CanvasHelpers.pasteMargin ∧
        dup.boundingBox.top = src.boundingBox.top + CanvasHelpers.pasteMargin ∧
        dup.boundingBox.width = src.boundingBox.width ∧
        dup.boundingBox.height = src.boundingBox.height ∧
        dup.points = src.points.map
          (fun p => { x := p.x + CanvasHelpers.pasteMargin,
                      y := p.y + CanvasHelpers.pasteMargin }) ∧
        dup.tags = src.tags)
      [catRegion]
      (CanvasHelpers.duplicateWithOffset [catRegion] sampleAsset.regions
        CanvasHelpers.pasteMargin) :=
  pasteRegions_spec
    { selectedRegions := [], multiSelect := false, clipboard := some [catRegion],
      surfaceRegions := [], notifications := 0 } sampleAsset [catRegion]
    rfl (by decide)

/-- `spliceOne` on the empty collection removes nothing, whatever the start index. -/
theorem spliceOne_nil (s : Int) : Canvas.spliceOne [] s = [] := by
  simp [Canvas.spliceOne]

/-- Appending a region always re-establishes the tagged-state invariant. -/
theorem addRegionToAsset_inv (m : AssetMetadata) (r : Region) :
    Canvas.taggedInvariant (Canvas.addRegionToAsset m r) := by
  show m.regions ++ [r] ≠ [] ↔
    (if (m.regions ++ [r]).length ≠ 0 then AssetState.Tagged else m.asset.state)
      = AssetState.Tagged
  rw [if_pos (by simp)]
  simp

/-- The draw-end push (`onSelectionEnd`) always re-establishes the tagged-state
invariant. -/
theorem onSelectionEnd_inv (m : AssetMetadata) (r : Region) :
    Canvas.taggedInvariant (Canvas.onSelectionEnd m r) := by
  show m.regions ++ [r] ≠ [] ↔
    (if (m.regions ++ [r]).length ≠ 0 then AssetState.Tagged else m.asset.state)
      = AssetState.Tagged
  rw [if_pos (by simp)]
  simp

/-- `deleteRegionFromAsset` preserves the tagged-state invariant. -/
theorem deleteRegionFromAsset_inv (m : AssetMetadata) (id : String)
    (h : Canvas.taggedInvariant m) :
    Canvas.taggedInvariant (Canvas.deleteRegionFromAsset m id) := by
  show Canvas.spliceOne m.regions (Canvas.findIndex m.regions id) ≠ [] ↔
    (if (Canvas.spliceOne m.regions (Canvas.findIndex m.regions id)).length = 0
      then AssetState.Visited else m.asset.state) = AssetState.Tagged
  by_cases hlen : (Canvas.spliceOne m.regions (Canvas.findIndex m.regions id)).length = 0
  · rw [if_pos hlen]
    exact iff_of_false (fun hne => hne (List.length_eq_zero.mp hlen)) (by decide)
  · rw [if_neg hlen]
    have hne : Canvas.spliceOne m.regions (Canvas.findIndex m.regions id) ≠ [] :=
      fun hnil => hlen (by rw [hnil]; rfl)
    have hmne : m.regions ≠ [] := fun hnil => hne (by rw [hnil, spliceOne_nil])
    exact iff_of_true hne (h.mp hmne)

/-- Folding deletions over a list of ids preserves the tagged-state invariant. -/
theorem foldl_delete_inv (ids : List String) :
    ∀ m : AssetMetadata, Canvas.taggedInvariant m →
      Canvas.taggedInvariant (ids.foldl Canvas.deleteRegionFromAsset m) := by
  induction ids with
  | nil => intro m h; exact h
  | cons i rest ih =>
    intro m h
    rw [List.foldl_cons]
    exact ih _ (deleteRegionFromAsset_inv m i h)

/-- `addRegions` preserves the tagged-state invariant. -/
theorem addRegions_inv (rs : List Region) :
    ∀ m : AssetMetadata, Canvas.taggedInvariant m →
      Canvas.taggedInvariant (Canvas.addRegions m rs) := by
  induction rs with
  | nil => intro m h; exact h
  | cons r rest ih =>
    intro m _
    rw [Canvas.addRegions, List.foldl_cons]
    exact ih (Canvas.addRegionToAsset m r) (addRegionToAsset_inv m r)

/-- C7: every region-adding operation (draw-end, direct add, paste) and every
region-removing operation (delete, cut, clear-all) preserves the invariant that the
asset's state is Tagged exactly when its region collection is non-empty. -/
theorem regionMutations_taggedInvariant (m : AssetMetadata) (st : CanvasState)
    (newRegion region : Region) (id : String) (selectedIds : List String)
    (h : Canvas.taggedInvariant m) :
    Canvas.taggedInvariant (Canvas.onSelectionEnd m newRegion) ∧
    Canvas.taggedInvariant (Canvas.addRegionToAsset m region) ∧
    Canvas.taggedInvariant (Canvas.pasteRegions st m) ∧
    Canvas.taggedInvariant (Canvas.deleteRegionFromAsset m id) ∧
    Canvas.taggedInvariant (Canvas.cutRegionsAsset m selectedIds) ∧
    Canvas.taggedInvariant (Canvas.clearRegions m) := by
  refine ⟨onSelectionEnd_inv m newRegion, addRegionToAsset_inv m region, ?_,
    deleteRegionFromAsset_inv m id h, foldl_delete_inv selectedIds m h,
    foldl_delete_inv _ m h⟩
  rw [Canvas.pasteRegions]
  cases st.clipboard with
  | none => exact h
  | some rs => exact addRegions_inv _ m h

/-- Witness for C7 at the concrete sample asset (Tagged, two regions), a concrete state,
the sample regions and the id list ["r1"]. -/
theorem regionMutations_taggedInvariant_witness :
    Canvas.taggedInvariant (Canvas.onSelectionEnd sampleAsset dogRegion) ∧
    Canvas.taggedInvariant (Canvas.addRegionToAsset sampleAsset dogRegion) ∧
    Canvas.taggedInvariant (Canvas.pasteRegions
      { selectedRegions := [], multiSelect := false, clipboard := some [catRegion],
        surfaceRegions := [], notifications := 0 } sampleAsset) ∧
    Canvas.taggedInvariant (Canvas.deleteRegionFromAsset sampleAsset "r1") ∧
    Canvas.taggedInvariant (Canvas.cutRegionsAsset sampleAsset ["r1"]) ∧
    Canvas.taggedInvariant (Canvas.clearRegions sampleAsset) :=
  regionMutations_taggedInvariant sampleAsset
    { selectedRegions := [], multiSelect := false, clipboard := some [catRegion],
      surfaceRegions := [], notifications := 0 }
    dogRegion dogRegion "r1" ["r1"]
    (by show sampleAsset.regions ≠ [] ↔ sampleAsset.asset.state = AssetState.Tagged; decide)

/-- C8: on an active-asset change (differing asset id) the controller wipes every surface
region, clears `selectedRegions` when the incoming asset's region collection is
non-empty, and leaves `selectedRegions` untouched when it is empty. -/
theorem componentDidUpdate_assetChange_spec (st : CanvasState) (prevAssetId : String)
    (a : AssetMetadata) (h : a.asset.id ≠ prevAssetId) :
    (Canvas.componentDidUpdateAssetChange st prevAssetId a).surfaceRegions = [] ∧
    (a.regions ≠ [] →
      (Canvas.componentDidUpdateAssetChange st prevAssetId a).selectedRegions = []) ∧
    (a.regions = [] →
      (Canvas.componentDidUpdateAssetChange st prevAssetId a).selectedRegions
        = st.selectedRegions) := by
  unfold Canvas.componentDidUpdateAssetChange
  rw [if_pos h]
  by_cases hr : a.regions.length ≠ 0
  · rw [if_pos hr]
    exact ⟨rfl, fun _ => rfl, fun h0 => absurd (by rw [h0]; rfl) hr⟩
  · rw [if_neg hr]
    push_neg at hr
    exact ⟨rfl, fun hne => absurd (List.length_eq_zero.mp hr) hne, fun _ => rfl⟩

/-- Witness for C8 at a concrete state with a stale selection, a differing incoming asset
id, and the non-empty sample asset. -/
theorem componentDidUpdate_assetChange_spec_witness :
    (Canvas.componentDidUpdateAssetChange
        { selectedRegions := [dogRegion], multiSelect := false, clipboard := none,
          surfaceRegions := ["r2"], notifications := 0 } "asset-0" sampleAsset).surfaceRegions
      = [] ∧
    (sampleAsset.regions ≠ [] →
      (Canvas.componentDidUpdateAssetChange
        { selectedRegions := [dogRegion], multiSelect := false, clipboard := none,
          surfaceRegions := ["r2"], notifications := 0 } "asset-0" sampleAsset).selectedRegions
      = []) ∧
    (sampleAsset.regions = [] →
      (Canvas.componentDidUpdateAssetChange
        { selectedRegions := [dogRegion], multiSelect := false, clipboard := none,
          surfaceRegions := ["r2"], notifications := 0 } "asset-0" sampleAsset).selectedRegions
      = CanvasState.selectedRegions
        { selectedRegions := [dogRegion], multiSelect := false, clipboard := none,
          surfaceRegions := ["r2"], notifications := 0 }) :=
  componentDidUpdate_assetChange_spec
    { selectedRegions := [dogRegion], multiSelect := false, clipboard := none,
      surfaceRegions := ["r2"], notifications := 0 } "asset-0" sampleAsset (by decide)

/-- A single region-select event preserves the pairwise-distinctness of the selected
region ids, whatever the mode and event id. -/
theorem onRegionSelected_nodup (regions sel : List Region) (ms : Bool) (id : String)
    (h : (sel.map Region.id).Nodup) :
    ((Canvas.onRegionSelected regions ms sel id).map Region.id).Nodup := by
  unfold Canvas.onRegionSelected
  cases hfind : regions.find? (fun region => region.id == id) with
  | none => exact h
  | some sr =>
    cases ms with
    | false => simp
    | true =>
      cases hnone : sel.find? (fun r => r.id == sr.id) with
      | some r0 => simpa [hnone] using h
      | none =>
        have hnotin : sr.id ∉ sel.map Region.id := by
          intro hmem
          rcases List.mem_map.mp hmem with ⟨r, hrmem, hid⟩
          have := List.find?_eq_none.mp hnone r hrmem
          simp [hid] at this
        simp only [hnone, Option.isNone_none, if_true, List.map_append]
        exact List.nodup_append.mpr ⟨h, List.nodup_singleton _,
          List.disjoint_singleton.mpr hnotin⟩

/-- A whole sequence of region-select events preserves the pairwise-distinctness of the
selected region ids. -/
theorem selectEvents_nodup (regions : List Region) (events : List (Bool × String)) :
    ∀ sel : List Region, (sel.map Region.id).Nodup →
      ((Canvas.selectEvents regions sel events).map Region.id).Nodup := by
  induction events with
  | nil => intro sel h; exact h
  | cons e rest ih =>
    intro sel h
    rw [Canvas.selectEvents, List.foldl_cons]
    exact ih _ (onRegionSelected_nodup regions sel e.1 e.2 h)

/-- C9: after any sequence of region-select events whose ids all exist in the asset's
region collection, starting from a selection with pairwise-distinct region ids, the
selection still has pairwise-distinct region ids (multi-select appends only when the id
is not yet selected), and in single-select mode the selection is replaced by exactly the
one matching region. -/
theorem onRegionSelected_spec (regions sel : List Region) (events : List (Bool × String))
    (h1 : ∀ e ∈ events, ∃ r ∈ regions, r.id = e.2)
    (h2 : (sel.map Region.id).Nodup) :
    ((Canvas.selectEvents regions sel events).map Region.id).Nodup ∧
    (∀ (id : String) (r : Region),
      regions.find? (fun region => region.id == id) = some r →
      Canvas.onRegionSelected regions false sel id = [r]) := by
  refine ⟨selectEvents_nodup regions events sel h2, ?_⟩
  intro id r hr
  unfold Canvas.onRegionSelected
  rw [hr]
  simp

/-- Witness for C9 at the sample asset's regions, an initially empty selection, and a
concrete event sequence (single-select "r1", then multi-select "r2"). -/
theorem onRegionSelected_spec_witness :
    ((Canvas.selectEvents sampleAsset.regions [] [(false, "r1"), (true, "r2")]).map
        Region.id).Nodup ∧
    (∀ (id : String) (r : Region),
      sampleAsset.regions.find? (fun region => region.id == id) = some r →
      Canvas.onRegionSelected sampleAsset.regions false [] id = [r]) :=
  onRegionSelected_spec sampleAsset.regions [] [(false, "r1"), (true, "r2")]
    (by decide) (by decide)

end VoTT
